import Mathlib

/-!
Verification development for the CoreSight trace subsystem of
`probe-rs/src/architecture/arm/component/mod.rs`.

The register-level drivers (`dwt.rs`, `itm.rs`, `tpiu.rs`, `swo.rs`,
`tmc.rs`) and the ROM-table types (`romtable.rs`) are not among the
provided sources; every definition that needs them is marked
"Modelled from the spec" and follows the specification's wording.
Everything else is a direct shallow embedding of `mod.rs`.

Register I/O is modelled by an explicit transaction log (`Event` lists)
plus an environment that decides, per transaction, whether the underlying
probe I/O succeeds.  Machine integers are `Nat`; the one place where u32
arithmetic can fault (the prescaler computation) is modelled explicitly.
-/

/-- Modelled from the spec: the peripheral-kind tag of `romtable.rs`
(`PeripheralType`), an enumerated tag identifying a CoreSight peripheral
(spec section 3, "Peripheral Kind"). -/
inductive PeripheralType
  | dwt
  | itm
  | tpiu
  | swo
  | tmc
  | traceFunnel
  deriving DecidableEq, Repr

/-- Modelled from the spec: a discovered debug component is a handle bound
to a base address and identified by its peripheral kind (spec section 3,
"Debug Component"); `romtable.rs` is outside the provided sources. -/
structure CoresightComponent where
  kind : PeripheralType
  base : Nat
  deriving DecidableEq, Repr

/-- Modelled from the spec: `CoresightComponent::find_component` of
`romtable.rs` answers whether this component is of the requested kind
(components are "identified by, and looked up via, [their] Peripheral
Kind", spec section 3). -/
def CoresightComponent.find_component (c : CoresightComponent)
    (pt : PeripheralType) : Option CoresightComponent :=
  if c.kind = pt then some c else none

/-- Errors of the trace subsystem: a missing component
(`RomTableError::ComponentNotFound`), a probe-level register I/O failure
(propagated verbatim), and an arithmetic fault of u32 arithmetic
(division by zero or subtraction underflow, which panic in Rust). -/
inductive Err
  | componentNotFound (kind : PeripheralType)
  | io
  | arithmeticOverflow
  deriving DecidableEq, Repr

/-- Whether an `Except` is a success. -/
def exceptOk {α β : Type} : Except α β → Bool
  | .ok _ => true
  | .error _ => false

/-- `find_component` (mod.rs lines 97-107): goes through every component in
the list and returns the first component with the given type, failing with
`ComponentNotFound` naming the requested kind otherwise. -/
def find_component (components : List CoresightComponent)
    (peripheral_type : PeripheralType) : Except Err CoresightComponent :=
  match components.findSome? (fun c => c.find_component peripheral_type) with
  | some c => .ok c
  | none => .error (.componentNotFound peripheral_type)

/-- `SwoMode` of the probe-rs ARM interface: the line encoding of the
serial trace output. -/
inductive SwoMode
  | manchester
  | uart
  deriving DecidableEq, Repr

/-- Modelled from the spec: `SwoConfig` carries the target clock
frequency, desired baud rate, line encoding and a continuous-formatting
flag (spec section 3, "Trace Sink"); its definition is outside the
provided sources, its accessors are used by `mod.rs`. -/
structure SwoConfig where
  tpiu_clk : Nat
  baud : Nat
  mode : SwoMode
  tpiu_continuous_formatting : Bool
  deriving DecidableEq, Repr

/-- `TraceSink` (mod.rs lines 24-36): the chosen destination for trace
data. -/
inductive TraceSink
  | swo (config : SwoConfig)
  | tpiu (config : SwoConfig)
  | traceMemory
  deriving DecidableEq, Repr

/-- `tmc::Mode`: capture mode of the trace memory controller; `mod.rs`
uses only `Software`. -/
inductive TmcMode
  | circular
  | software
  | hardware
  deriving DecidableEq, Repr

/-- One peripheral-driver register transaction, as recorded in the
transaction log.  Each constructor corresponds to exactly one driver call
made by `mod.rs` (each driver call is one register transaction, spec
section 4.1/4.3). -/
inductive Event
  | dwtEnable
  | dwtEnableExceptionTrace
  | itmUnlock
  | itmTxEnable
  | swoUnlock
  | swoSetPrescaler (value : Nat)
  | swoSetPinProtocol (value : Nat)
  | tpiuSetPortSize (value : Nat)
  | tpiuSetPrescaler (value : Nat)
  | tpiuSetPinProtocol (value : Nat)
  | tpiuSetFormatter (value : Nat)
  | tmcDisableCapture
  | tmcReady (result : Bool)
  | tmcSetMode (mode : TmcMode)
  | tmcEnableCapture
  deriving DecidableEq, Repr

/-- Whether an event is an operation on a sink peripheral (TPIU, SWO or
TMC) rather than on the DWT/ITM trace sources. -/
def Event.isSinkOp : Event → Bool
  | .dwtEnable | .dwtEnableExceptionTrace | .itmUnlock | .itmTxEnable => false
  | _ => true

/-- Environment of one configuration run: `ok n` tells whether the n-th
register transaction of the run succeeds at the probe level, and
`readyAfter` is how many times the TMC `ready()` poll reads `false`
before it reads `true`. -/
structure Env where
  ok : Nat → Bool
  readyAfter : Nat

/-- One driver register operation: the event is appended to the
transaction log and the environment decides whether the underlying probe
I/O succeeds; a failure is the propagated I/O error (this layer adds no
new error conditions, spec section 4.1). -/
def emit (env : Env) (log : List Event) (e : Event) :
    List Event × Except Err Unit :=
  (log ++ [e], if env.ok log.length then .ok () else .error .io)

/-- The u32 prescaler expression `(config.tpiu_clk() / config.baud()) - 1`
of mod.rs lines 126 and 178: division by zero and subtraction underflow
are u32 arithmetic faults (Rust panics), modelled as
`Err.arithmeticOverflow`; otherwise the value is `clk / baud - 1` with
floor division. -/
def u32_prescaler (clk baud : Nat) : Except Err Nat :=
  if baud = 0 then .error .arithmeticOverflow
  else if clk / baud = 0 then .error .arithmeticOverflow
  else .ok (clk / baud - 1)

/-- `configure_tpiu` (mod.rs lines 118-143): set port size 1 (serial
wire), set the prescaler, set the pin protocol from the mode (1 =
Manchester, 2 = UART), and set the formatter word (0x102 with continuous
formatting, else 0x100). -/
def configure_tpiu (env : Env) (config : SwoConfig) (log : List Event) :
    List Event × Except Err Unit :=
  let (log, r) := emit env log (.tpiuSetPortSize 1)
  match r with
  | .error e => (log, .error e)
  | .ok () =>
    match u32_prescaler config.tpiu_clk config.baud with
    | .error e => (log, .error e)
    | .ok prescaler =>
      let (log, r) := emit env log (.tpiuSetPrescaler prescaler)
      match r with
      | .error e => (log, .error e)
      | .ok () =>
        let (log, r) := emit env log
          (.tpiuSetPinProtocol
            (match config.mode with | .manchester => 1 | .uart => 2))
        match r with
        | .error e => (log, .error e)
        | .ok () =>
          emit env log
            (.tpiuSetFormatter
              (if config.tpiu_continuous_formatting then 0x102 else 0x100))

/-- The TMC ready-poll `while !tmc.ready()? {}` of mod.rs line 204,
unrolled over the environment's `readyAfter` count: `k` polls read
`false`, then one reads `true`; every poll is one register transaction
that can fail. -/
def tmc_ready_loop (env : Env) (log : List Event) :
    Nat → List Event × Except Err Unit
  | 0 => emit env log (.tmcReady true)
  | k + 1 =>
    let (log', r) := emit env log (.tmcReady false)
    match r with
    | .error e => (log', .error e)
    | .ok () => tmc_ready_loop env log' k

/-- The DWT/ITM phase of `setup_tracing` (mod.rs lines 153-161): locate
the DWT, `enable()`, `enable_exception_trace()`; locate the ITM,
`unlock()`, `tx_enable()`.  Any failure aborts. -/
def setup_dwt_itm (env : Env) (components : List CoresightComponent) :
    List Event × Except Err Unit :=
  match find_component components .dwt with
  | .error e => ([], .error e)
  | .ok _ =>
    let (log, r) := emit env [] .dwtEnable
    match r with
    | .error e => (log, .error e)
    | .ok () =>
      let (log, r) := emit env log .dwtEnableExceptionTrace
      match r with
      | .error e => (log, .error e)
      | .ok () =>
        match find_component components .itm with
        | .error e => (log, .error e)
        | .ok _ =>
          let (log, r) := emit env log .itmUnlock
          match r with
          | .error e => (log, .error e)
          | .ok () =>
            let (log, r) := emit env log .itmTxEnable
            match r with
            | .error e => (log, .error e)
            | .ok () => (log, .ok ())

/-- The sink branch of `setup_tracing` (mod.rs lines 163-212): TPIU sink
configures the TPIU; SWO sink uses the SWO component when present
(unlock, prescaler, pin protocol) and otherwise falls back to the TPIU
sequence with the same config; trace-memory sink disables capture, polls
ready, sets software mode and enables capture. -/
def setup_sink (env : Env) (components : List CoresightComponent)
    (sink : TraceSink) (log : List Event) : List Event × Except Err Unit :=
  match sink with
  | .tpiu config =>
    match find_component components .tpiu with
    | .error e => (log, .error e)
    | .ok _ => configure_tpiu env config log
  | .swo config =>
    match find_component components .swo with
    | .ok _ =>
      let (log, r) := emit env log .swoUnlock
      match r with
      | .error e => (log, .error e)
      | .ok () =>
        match u32_prescaler config.tpiu_clk config.baud with
        | .error e => (log, .error e)
        | .ok prescaler =>
          let (log, r) := emit env log (.swoSetPrescaler prescaler)
          match r with
          | .error e => (log, .error e)
          | .ok () =>
            emit env log
              (.swoSetPinProtocol
                (match config.mode with | .manchester => 1 | .uart => 2))
    | .error _ =>
      match find_component components .tpiu with
      | .error e => (log, .error e)
      | .ok _ => configure_tpiu env config log
  | .traceMemory =>
    match find_component components .tmc with
    | .error e => (log, .error e)
    | .ok _ =>
      let (log, r) := emit env log .tmcDisableCapture
      match r with
      | .error e => (log, .error e)
      | .ok () =>
        let (log, r) := tmc_ready_loop env log env.readyAfter
        match r with
        | .error e => (log, .error e)
        | .ok () =>
          let (log, r) := emit env log (.tmcSetMode .software)
          match r with
          | .error e => (log, .error e)
          | .ok () => emit env log .tmcEnableCapture

/-- `setup_tracing` (mod.rs lines 148-215): the DWT/ITM phase followed by
the sink-specific phase; a failure in the first phase aborts the whole
configuration. -/
def setup_tracing (env : Env) (components : List CoresightComponent)
    (sink : TraceSink) : List Event × Except Err Unit :=
  match setup_dwt_itm env components with
  | (log, .error e) => (log, .error e)
  | (log, .ok ()) => setup_sink env components sink log

/-- The four source-side transactions that `setup_tracing` issues before
any sink transaction: DWT enable, DWT exception trace, ITM unlock, ITM tx
enable. -/
def dwtItmPrelude : List Event :=
  [.dwtEnable, .dwtEnableExceptionTrace, .itmUnlock, .itmTxEnable]

/-- Whether the DWT/ITM phase of a run succeeds: both components are
present and the first four register transactions succeed. -/
def dwtItmPhaseOk (env : Env) (components : List CoresightComponent) : Bool :=
  exceptOk (find_component components .dwt) && env.ok 0 && env.ok 1 &&
    exceptOk (find_component components .itm) && env.ok 2 && env.ok 3

/-- The prescaler value carried by a transaction, if any. -/
def prescalerOf : Event → Option Nat
  | .tpiuSetPrescaler v => some v
  | .swoSetPrescaler v => some v
  | _ => none

/-- All prescaler values written in a transaction log, in order. -/
def prescalerValues (log : List Event) : List Nat :=
  log.filterMap prescalerOf

/-- One probe-level register transaction of the Debug Register Access
layer (`component.read_reg` / `component.write_reg`). -/
inductive Transaction
  | readReg (addr : Nat)
  | writeReg (addr : Nat) (value : Nat)
  deriving DecidableEq, Repr

/-- A debug register type of the `DebugRegister` trait: a fixed 32-bit
register address constant (`Self::ADDRESS`). -/
structure RegisterType where
  address : Nat
  deriving DecidableEq, Repr

/-- `DebugRegister::load_unit` (mod.rs lines 62-70): one register read at
`ADDRESS + 16 * unit` (u32 arithmetic, hence reduced modulo 2^32),
returning the word the probe delivers there. -/
def load_unit (r : RegisterType) (probe : Nat → Nat) (unit : Nat) :
    Nat × List Transaction :=
  let addr := (r.address + 16 * unit) % 2 ^ 32
  (probe addr, [.readReg addr])

/-- `DebugRegister::store_unit` (mod.rs lines 82-93): one register write
of the register's word at `ADDRESS + 16 * unit` (u32 arithmetic). -/
def store_unit (r : RegisterType) (value : Nat) (unit : Nat) :
    List Transaction :=
  [.writeReg ((r.address + 16 * unit) % 2 ^ 32) value]

/-- `u32::to_le_bytes` on a 32-bit word, as the list of its four
little-endian bytes. -/
def u32ToLeBytes (w : Nat) : List Nat :=
  [w % 256, w / 256 % 256, w / 65536 % 256, w / 16777216 % 256]

/-- The FIFO drain loop of `read_trace_memory` (mod.rs lines 245-265).
The argument list holds the successive results of `tmc.read()` this run
observes (`some word` when the FIFO yields a word, `none` when it is
momentarily empty); once the list is exhausted every further read is
empty.  Each iteration appends the word's little-endian bytes; on an
empty read the loop stops only at a 16-byte frame boundary, and after
each iteration it stops when the buffer is frame-aligned and has reached
`fifo_size`.  The concrete loop spins forever when reads stay empty off a
frame boundary, which the model reports as `none`. -/
def drainFifo (fifoSize : Nat) : List (Option Nat) → List Nat →
    Option (List Nat)
  | [], acc => if acc.length % 16 = 0 then some acc else none
  | r :: rest, acc =>
    match r with
    | some w =>
      let acc' := acc ++ u32ToLeBytes w
      if acc'.length % 16 = 0 ∧ fifoSize ≤ acc'.length then some acc'
      else drainFifo fifoSize rest acc'
    | none =>
      if acc.length % 16 = 0 then some acc
      else drainFifo fifoSize rest acc

/-- `chunks_exact(16)` over a byte list, fuel-indexed so that it reduces
by kernel computation; the fuel is the list length. -/
def chunksExactGo : Nat → List Nat → List (List Nat)
  | 0, _ => []
  | fuel + 1, l =>
    if 16 ≤ l.length then l.take 16 :: chunksExactGo fuel (l.drop 16)
    else []

/-- `etf_trace.chunks_exact(16)` (mod.rs line 275): the consecutive full
16-byte frames of the raw buffer; a trailing partial frame is never
yielded. -/
def chunksExact16 (l : List Nat) : List (List Nat) :=
  chunksExactGo l.length l

/-- The even/odd byte pairs of a frame: `[(b0,b1),(b2,b3),...]`. -/
def frameBytePairs : List Nat → List (Nat × Nat)
  | e :: o :: rest => (e, o) :: frameBytePairs rest
  | _ => []

/-- Modelled from the spec: the decode step of `tmc::Frame` (`tmc.rs` is
not among the provided sources).  A formatted trace frame is a fixed
16-byte unit packing interleaved bytes from several trace sources plus
periodic source-ID markers (spec sections 3 and 4.5): byte 15 holds the
auxiliary least-significant bits of the eight even-indexed bytes; an
even-indexed byte with LSB 1 announces a new 7-bit source ID, an
even-indexed byte with LSB 0 is a data byte whose true LSB is its
auxiliary bit, odd-indexed bytes 1..13 are plain data bytes, and the
current source ID is carried forward across bytes and frames.  `aux` is
the auxiliary byte, `k` the slot index, `id` the current source ID; the
result pairs each data byte with the source ID it is attributed to, and
returns the final ID. -/
def decodePairs (aux : Nat) : List (Nat × Nat) → Nat → Nat →
    List (Nat × Nat) × Nat
  | [], _, id => ([], id)
  | (e, o) :: rest, k, id =>
    let auxBit := aux / 2 ^ k % 2
    let (outE, id1) :=
      if e % 2 = 1 then (([] : List (Nat × Nat)), e / 2)
      else ([(id, e + auxBit)], id)
    let outO := if rest.isEmpty then ([] : List (Nat × Nat)) else [(id1, o)]
    let (tail, idF) := decodePairs aux rest (k + 1) id1
    (outE ++ (outO ++ tail), idF)

/-- Modelled from the spec: decoding one 16-byte formatted frame under
the carried-in source ID (see `decodePairs`); the last byte pair's odd
member is the auxiliary byte and yields no data. -/
def frameDecode (frame : List Nat) (id : Nat) : List (Nat × Nat) × Nat :=
  decodePairs (frame.getD 15 0) (frameBytePairs frame) 0 id

/-- The per-byte dispatch of `read_trace_memory` (mod.rs lines 277-284):
source ID 13 (the ITM ATID assigned by `Itm::tx_enable`) is appended to
the output, ID 0 is dropped silently, any other ID is dropped and
collected as a warned unexpected-source pair (`tracing::warn!`), never an
error. -/
def demuxFrame : List (Nat × Nat) → List Nat × List (Nat × Nat)
  | [] => ([], [])
  | (id, data) :: rest =>
    let (itm, warns) := demuxFrame rest
    if id = 13 then (data :: itm, warns)
    else if id = 0 then (itm, warns)
    else (itm, (id, data) :: warns)

/-- All decoded `(source_id, byte)` pairs of a frame sequence in order,
threading the current source ID across frames, together with the final
ID. -/
def decodeAll : List (List Nat) → Nat → List (Nat × Nat) × Nat
  | [], id => ([], id)
  | f :: fs, id =>
    let (dec, id') := frameDecode f id
    let (rest, idF) := decodeAll fs id'
    (dec ++ rest, idF)

/-- The frame-processing loop of `read_trace_memory` (mod.rs lines
271-286): decode each 16-byte frame under the carried source ID, dispatch
each decoded byte, and carry the frame's final ID into the next frame.
Returns the ITM byte stream, the warned unexpected-source pairs, and the
final source ID (which the caller of `processFrames` inside
`read_trace_memory` discards). -/
def processFrames : List (List Nat) → Nat → List Nat × List (Nat × Nat) × Nat
  | [], id => ([], [], id)
  | f :: fs, id =>
    let (dec, id') := frameDecode f id
    let (itm, warns) := demuxFrame dec
    let (itmRest, warnsRest, idF) := processFrames fs id'
    (itm ++ itmRest, warns ++ warnsRest, idF)

/-- `read_trace_memory` (mod.rs lines 231-289): drain the TMC FIFO into a
raw buffer, split it into consecutive 16-byte frames, decode them
starting from source ID 0 (`let mut id = 0.into()`), and return the ITM
byte stream together with the warned unexpected-source pairs.  The
environment supplies the device-reported `fifo_size()` and the FIFO read
results; `none` models the non-terminating spin of the drain loop. -/
def read_trace_memory (fifoSize : Nat) (reads : List (Option Nat)) :
    Option (List Nat × List (Nat × Nat)) :=
  match drainFifo fifoSize reads [] with
  | none => none
  | some etf_trace =>
    let (itm_trace, warns, _) := processFrames (chunksExact16 etf_trace) 0
    some (itm_trace, warns)

/-! Theorems. -/

/-- Claim C10: the prescaler computation `(clock / baud) - 1` of the Tpiu
and Swo configuration paths is well-defined exactly under the
precondition `0 < baud ≤ clock`: division by zero when `baud = 0`,
underflow of the unsigned subtraction when `baud > clock`, and under the
precondition the arithmetic-fault branch is unreachable and the value is
`clock / baud - 1`. -/
theorem u32_prescaler_precondition : ∀ clk baud : Nat,
    (0 < baud → baud ≤ clk →
      u32_prescaler clk baud = Except.ok (clk / baud - 1)) ∧
    (baud = 0 → u32_prescaler clk baud = Except.error Err.arithmeticOverflow) ∧
    (clk < baud → u32_prescaler clk baud = Except.error Err.arithmeticOverflow) := by
  intro clk baud
  refine ⟨?_, ?_, ?_⟩
  · intro hb hle
    have h1 : ¬baud = 0 := by omega
    have h2 : ¬clk / baud = 0 := by
      have := Nat.div_pos hle hb
      omega
    simp [u32_prescaler, h1, h2]
  · intro h
    simp [u32_prescaler, h]
  · intro h
    have hb : ¬baud = 0 := by omega
    have h0 : clk / baud = 0 := Nat.div_eq_of_lt h
    simp [u32_prescaler, hb, h0]

/-- Witness for claim C10 at `(clk, baud) = (8, 2)`, `(8, 0)`, `(2, 8)`. -/
theorem u32_prescaler_precondition_witness :
    u32_prescaler 8 2 = Except.ok 3 ∧
    u32_prescaler 8 0 = Except.error Err.arithmeticOverflow ∧
    u32_prescaler 2 8 = Except.error Err.arithmeticOverflow :=
  ⟨(u32_prescaler_precondition 8 2).1 (by decide) (by decide),
   (u32_prescaler_precondition 8 0).2.1 rfl,
   (u32_prescaler_precondition 2 8).2.2 (by decide)⟩

/-- Claim C8: for every debug register type, probe and unit index,
`load_unit` and `store_unit` perform exactly one probe-level register
transaction, at address `ADDRESS + 16 * unit` (fixed stride of 16 address
units per unit index). -/
theorem load_store_unit_single_transaction :
    ∀ (r : RegisterType) (probe : Nat → Nat) (value unit : Nat),
    r.address + 16 * unit < 2 ^ 32 →
    (load_unit r probe unit).2 = [Transaction.readReg (r.address + 16 * unit)] ∧
    store_unit r value unit =
      [Transaction.writeReg (r.address + 16 * unit) value] ∧
    (load_unit r probe unit).2.length = 1 ∧
    (store_unit r value unit).length = 1 := by
  intro r probe value unit h
  have h' : (r.address + 16 * unit) % 2 ^ 32 = r.address + 16 * unit :=
    Nat.mod_eq_of_lt h
  simp [load_unit, store_unit, h']
  all_goals omega

/-- Witness for claim C8 at address 4096 and unit 3 (4096 + 16*3 = 4144). -/
theorem load_store_unit_single_transaction_witness :
    (load_unit ⟨4096⟩ (fun _ => 0) 3).2 = [Transaction.readReg 4144] ∧
    store_unit ⟨4096⟩ 7 3 = [Transaction.writeReg 4144 7] ∧
    (load_unit ⟨4096⟩ (fun _ => 0) 3).2.length = 1 ∧
    (store_unit ⟨4096⟩ 7 3).length = 1 :=
  load_store_unit_single_transaction ⟨4096⟩ (fun _ => 0) 7 3 (by norm_num)

/-- The list search of `find_component` agrees with `List.find?` on the
kind tag. -/
theorem find_component_eq_find? (comps : List CoresightComponent)
    (pt : PeripheralType) :
    find_component comps pt =
      (match comps.find? (fun c => c.kind == pt) with
       | some c => Except.ok c
       | none => Except.error (Err.componentNotFound pt)) := by
  induction comps with
  | nil => rfl
  | cons c cs ih =>
    by_cases h : c.kind = pt
    · simp [find_component, CoresightComponent.find_component,
        List.findSome?_cons, List.find?_cons, h]
    · have hm : c.find_component pt = none := by
        simp [CoresightComponent.find_component, h]
      have h' : ((fun c => c.kind == pt) c) = false := by simp [h]
      rw [find_component, List.findSome?_cons, hm, List.find?_cons_of_neg]
      · exact ih
      · simp [h]

/-- Claim C9: the component locator scans the supplied list in order and
returns the first component matching the requested kind, and fails with a
`ComponentNotFound` error naming the requested kind exactly when no
component matches; it is a pure function of its arguments. -/
theorem find_component_contract :
    ∀ (comps : List CoresightComponent) (pt : PeripheralType),
    find_component comps pt =
      (match comps.find? (fun c => c.kind == pt) with
       | some c => Except.ok c
       | none => Except.error (Err.componentNotFound pt)) ∧
    (find_component comps pt = Except.error (Err.componentNotFound pt) ↔
      ∀ c ∈ comps, c.kind ≠ pt) := by
  intro comps pt
  refine ⟨find_component_eq_find? comps pt, ?_⟩
  rw [find_component_eq_find? comps pt]
  cases hf : comps.find? (fun c => c.kind == pt) with
  | some c =>
    have hc : c ∈ comps := List.mem_of_find?_eq_some hf
    have hk := List.find?_some hf
    simp only [beq_iff_eq] at hk
    constructor
    · intro h
      exact absurd h (by simp)
    · intro h
      exact absurd hk (h c hc)
  | none =>
    have hall := List.find?_eq_none.mp hf
    constructor
    · intro _ c hc
      have := hall c hc
      simpa using this
    · intro _
      rfl

/-- Witness for claim C9: the first ITM component is found; a list
without an ITM yields `ComponentNotFound`. -/
theorem find_component_contract_witness :
    find_component [⟨.tpiu, 5⟩, ⟨.itm, 6⟩] .itm = Except.ok ⟨.itm, 6⟩ ∧
    find_component [⟨.tpiu, 5⟩] .itm =
      Except.error (Err.componentNotFound .itm) := by
  constructor
  · rw [(find_component_contract [⟨.tpiu, 5⟩, ⟨.itm, 6⟩] .itm).1]
    rfl
  · exact (find_component_contract [⟨.tpiu, 5⟩] .itm).2.mpr (by decide)

/-- The demultiplexing dispatch keeps exactly the ITM-attributed bytes
and warns exactly on the sources other than 13 and 0. -/
theorem demuxFrame_eq : ∀ dec : List (Nat × Nat),
    demuxFrame dec =
      (dec.filterMap (fun p => if p.1 = 13 then some p.2 else none),
       dec.filter (fun p => !(p.1 == 13) && !(p.1 == 0))) := by
  intro dec
  induction dec with
  | nil => rfl
  | cons p rest ih =>
    obtain ⟨i, b⟩ := p
    by_cases h13 : i = 13
    · simp [demuxFrame, ih, h13]
    · by_cases h0 : i = 0
      · simp [demuxFrame, ih, h13, h0]
      · simp [demuxFrame, ih, h13, h0]

/-- Claim C4: for every decoded `(source_id, byte)` pair, source 13 is
appended to the output stream, source 0 is dropped silently, and any
other source is dropped into the warned-diagnostics list; an unexpected
source ID is never an error and never aborts the read (whenever the drain
loop terminates, `read_trace_memory` succeeds). -/
theorem frame_demux_dispatch :
    (∀ dec : List (Nat × Nat),
      demuxFrame dec =
        (dec.filterMap (fun p => if p.1 = 13 then some p.2 else none),
         dec.filter (fun p => !(p.1 == 13) && !(p.1 == 0)))) ∧
    (∀ (fifoSize : Nat) (reads : List (Option Nat)) (etf : List Nat),
      drainFifo fifoSize reads [] = some etf →
      ∃ out warns, read_trace_memory fifoSize reads = some (out, warns)) := by
  refine ⟨demuxFrame_eq, ?_⟩
  intro F reads etf h
  rcases hp : processFrames (chunksExact16 etf) 0 with ⟨a, b, c⟩
  exact ⟨a, b, by simp [read_trace_memory, h, hp]⟩

/-- Witness for claim C4: dispatch on sources 13, 0 and 7, and a
successful read on an immediately-empty FIFO. -/
theorem frame_demux_dispatch_witness :
    demuxFrame [(13, 5), (0, 1), (7, 9)] = ([5], [(7, 9)]) ∧
    read_trace_memory 0 [] = some ([], []) := by
  constructor
  · rw [frame_demux_dispatch.1]
    rfl
  · obtain ⟨o, w, h⟩ := frame_demux_dispatch.2 0 [] [] rfl
    exact h.trans (h.symm.trans (rfl : read_trace_memory 0 [] = some ([], [])))

/-- Characterization of the DWT/ITM phase: on success its log is exactly
the four-transaction prelude; its log only ever holds prelude
transactions; and it succeeds exactly when both components are present
and the first four register transactions succeed. -/
theorem setup_dwt_itm_char (env : Env) (comps : List CoresightComponent) :
    ((setup_dwt_itm env comps).2 = Except.ok () →
      (setup_dwt_itm env comps).1 = dwtItmPrelude) ∧
    (∀ e ∈ (setup_dwt_itm env comps).1, e ∈ dwtItmPrelude) ∧
    ((setup_dwt_itm env comps).2 = Except.ok () ↔
      dwtItmPhaseOk env comps = true) := by
  cases hd : find_component comps .dwt with
  | error e =>
    simp [setup_dwt_itm, dwtItmPhaseOk, hd, exceptOk]
  | ok cd =>
    cases hi : find_component comps .itm with
    | error e =>
      cases h0 : env.ok 0 <;> cases h1 : env.ok 1 <;>
        simp [setup_dwt_itm, dwtItmPhaseOk, hd, hi, exceptOk, emit, h0, h1,
          dwtItmPrelude]
    | ok ci =>
      cases h0 : env.ok 0 <;> cases h1 : env.ok 1 <;> cases h2 : env.ok 2 <;>
        cases h3 : env.ok 3 <;>
        simp [setup_dwt_itm, dwtItmPhaseOk, hd, hi, exceptOk, emit, h0, h1,
          h2, h3, dwtItmPrelude]

/-- Taking four events off a log that starts with the prelude yields the
prelude. -/
theorem take4_prelude_append : ∀ t : List Event,
    (dwtItmPrelude ++ t).take 4 = dwtItmPrelude := by
  intro t
  rfl

/-- A log of prelude transactions holds no sink-peripheral operation. -/
theorem any_isSinkOp_false_of_prelude : ∀ l : List Event,
    (∀ e ∈ l, e ∈ dwtItmPrelude) → l.any Event.isSinkOp = false := by
  intro l h
  rw [List.any_eq_false]
  intro e he
  have hm := h e he
  fin_cases hm <;> decide

/-- The ready-poll loop only appends to its log, and appends no
prescaler write. -/
theorem tmc_ready_loop_log (env : Env) : ∀ (k : Nat) (log : List Event),
    ∃ t, (tmc_ready_loop env log k).1 = log ++ t ∧
      ∀ e ∈ t, prescalerOf e = none := by
  intro k
  induction k with
  | zero =>
    intro log
    exact ⟨[Event.tmcReady true], by simp [tmc_ready_loop, emit], by decide⟩
  | succ k ih =>
    intro log
    cases h : env.ok log.length with
    | true =>
      obtain ⟨t, ht, hp⟩ := ih (log ++ [Event.tmcReady false])
      refine ⟨Event.tmcReady false :: t, ?_, ?_⟩
      · simp [tmc_ready_loop, emit, h, ht]
      · intro e he
        rcases List.mem_cons.mp he with h' | h'
        · subst h'; rfl
        · exact hp e h'
    | false =>
      exact ⟨[Event.tmcReady false], by simp [tmc_ready_loop, emit, h],
        by decide⟩

/-- `configure_tpiu` only appends to its log, and every appended
transaction is either prescaler-free or the TPIU prescaler write carrying
the value the u32 computation succeeded with. -/
theorem configure_tpiu_log (env : Env) (cfg : SwoConfig) (log : List Event) :
    ∃ t, (configure_tpiu env cfg log).1 = log ++ t ∧
      ∀ e ∈ t, prescalerOf e = none ∨
        ∃ q, u32_prescaler cfg.tpiu_clk cfg.baud = Except.ok q ∧
          e = Event.tpiuSetPrescaler q := by
  cases h0 : env.ok log.length with
  | false =>
    refine ⟨[Event.tpiuSetPortSize 1], by simp [configure_tpiu, emit, h0], ?_⟩
    intro e he
    rcases List.mem_singleton.mp he with rfl
    exact Or.inl rfl
  | true =>
    cases hq : u32_prescaler cfg.tpiu_clk cfg.baud with
    | error err =>
      refine ⟨[Event.tpiuSetPortSize 1],
        by simp [configure_tpiu, emit, h0, hq], ?_⟩
      intro e he
      rcases List.mem_singleton.mp he with rfl
      exact Or.inl rfl
    | ok q =>
      cases h1 : env.ok (log.length + 1) with
      | false =>
        refine ⟨[Event.tpiuSetPortSize 1, Event.tpiuSetPrescaler q],
          by simp [configure_tpiu, emit, h0, hq, h1], ?_⟩
        intro e he
        rcases List.mem_cons.mp he with rfl | he'
        · exact Or.inl rfl
        · rcases List.mem_singleton.mp he' with rfl
          exact Or.inr ⟨q, rfl, rfl⟩
      | true =>
        cases h2 : env.ok (log.length + 2) with
        | false =>
          refine ⟨[Event.tpiuSetPortSize 1, Event.tpiuSetPrescaler q,
            Event.tpiuSetPinProtocol
              (match cfg.mode with | .manchester => 1 | .uart => 2)],
            by simp [configure_tpiu, emit, h0, hq, h1, h2], ?_⟩
          intro e he
          rcases List.mem_cons.mp he with rfl | he'
          · exact Or.inl rfl
          · rcases List.mem_cons.mp he' with rfl | he''
            · exact Or.inr ⟨q, rfl, rfl⟩
            · rcases List.mem_singleton.mp he'' with rfl
              exact Or.inl rfl
        | true =>
          refine ⟨[Event.tpiuSetPortSize 1, Event.tpiuSetPrescaler q,
            Event.tpiuSetPinProtocol
              (match cfg.mode with | .manchester => 1 | .uart => 2),
            Event.tpiuSetFormatter
              (if cfg.tpiu_continuous_formatting then 0x102 else 0x100)],
            by simp [configure_tpiu, emit, h0, hq, h1, h2], ?_⟩
          intro e he
          rcases List.mem_cons.mp he with rfl | he'
          · exact Or.inl rfl
          · rcases List.mem_cons.mp he' with rfl | he''
            · exact Or.inr ⟨q, rfl, rfl⟩
            · rcases List.mem_cons.mp he'' with rfl | he'''
              · exact Or.inl rfl
              · rcases List.mem_singleton.mp he''' with rfl
                exact Or.inl rfl

/-- The sink phase only ever appends to the log it is given. -/
theorem setup_sink_append (env : Env) (comps : List CoresightComponent)
    (sink : TraceSink) (log : List Event) :
    ∃ t, (setup_sink env comps sink log).1 = log ++ t := by
  cases sink with
  | tpiu cfg =>
    cases ht : find_component comps .tpiu with
    | error e => exact ⟨[], by simp [setup_sink, ht]⟩
    | ok c =>
      obtain ⟨t, h, _⟩ := configure_tpiu_log env cfg log
      exact ⟨t, by simp [setup_sink, ht, h]⟩
  | swo cfg =>
    cases hs : find_component comps .swo with
    | error e =>
      cases ht : find_component comps .tpiu with
      | error e' => exact ⟨[], by simp [setup_sink, hs, ht]⟩
      | ok c =>
        obtain ⟨t, h, _⟩ := configure_tpiu_log env cfg log
        exact ⟨t, by simp [setup_sink, hs, ht, h]⟩
    | ok c =>
      cases h0 : env.ok log.length with
      | false =>
        exact ⟨[Event.swoUnlock], by simp [setup_sink, hs, emit, h0]⟩
      | true =>
        cases hq : u32_prescaler cfg.tpiu_clk cfg.baud with
        | error err =>
          exact ⟨[Event.swoUnlock], by simp [setup_sink, hs, emit, h0, hq]⟩
        | ok q =>
          cases h1 : env.ok (log.length + 1) with
          | false =>
            exact ⟨[Event.swoUnlock, Event.swoSetPrescaler q],
              by simp [setup_sink, hs, emit, h0, hq, h1]⟩
          | true =>
            exact ⟨[Event.swoUnlock, Event.swoSetPrescaler q,
              Event.swoSetPinProtocol
                (match cfg.mode with | .manchester => 1 | .uart => 2)],
              by simp [setup_sink, hs, emit, h0, hq, h1]⟩
  | traceMemory =>
    cases ht : find_component comps .tmc with
    | error e => exact ⟨[], by simp [setup_sink, ht]⟩
    | ok c =>
      cases h0 : env.ok log.length with
      | false =>
        exact ⟨[Event.tmcDisableCapture], by simp [setup_sink, ht, emit, h0]⟩
      | true =>
        obtain ⟨t, hl, _⟩ :=
          tmc_ready_loop_log env env.readyAfter (log ++ [Event.tmcDisableCapture])
        rcases hr : tmc_ready_loop env (log ++ [Event.tmcDisableCapture])
            env.readyAfter with ⟨rlog, rres⟩
        rw [hr] at hl
        cases rres with
        | error e =>
          exact ⟨Event.tmcDisableCapture :: t,
            by simp [setup_sink, ht, emit, h0, hr, hl]⟩
        | ok u =>
          cases u
          simp only [] at hl
          cases h2 : env.ok rlog.length with
          | false =>
            refine ⟨Event.tmcDisableCapture :: (t ++ [Event.tmcSetMode .software]), ?_⟩
            simp [setup_sink, ht, emit, h0, hr, h2]
            simp [hl]
          | true =>
            refine ⟨Event.tmcDisableCapture ::
              (t ++ [Event.tmcSetMode .software, Event.tmcEnableCapture]), ?_⟩
            simp [setup_sink, ht, emit, h0, hr, h2]
            simp [hl]

/-- Claim C1: for every sink variant and component list, the four DWT/ITM
transactions (DWT enable, DWT exception trace, ITM unlock, ITM tx enable)
are issued before any sink-peripheral transaction, and if the DWT/ITM
phase fails (component missing or register I/O failure) the whole
configuration aborts with an error having issued no sink-peripheral
transaction. -/
theorem setup_tracing_dwt_itm_before_sink :
    ∀ (env : Env) (comps : List CoresightComponent) (sink : TraceSink),
    ((setup_tracing env comps sink).1.any Event.isSinkOp = true →
      (setup_tracing env comps sink).1.take 4 = dwtItmPrelude) ∧
    (dwtItmPhaseOk env comps = false →
      exceptOk (setup_tracing env comps sink).2 = false ∧
      (setup_tracing env comps sink).1.any Event.isSinkOp = false) := by
  intro env comps sink
  obtain ⟨hok, hmem, hiff⟩ := setup_dwt_itm_char env comps
  rcases hdi : setup_dwt_itm env comps with ⟨log, r⟩
  rw [hdi] at hok hmem hiff
  cases r with
  | error e =>
    have hst : setup_tracing env comps sink = (log, Except.error e) := by
      simp [setup_tracing, hdi]
    rw [hst]
    have hany : log.any Event.isSinkOp = false :=
      any_isSinkOp_false_of_prelude log (by simpa using hmem)
    constructor
    · intro h
      rw [hany] at h
      exact absurd h (by simp)
    · intro _
      exact ⟨rfl, hany⟩
  | ok u =>
    cases u
    have hlog : log = dwtItmPrelude := by simpa using hok rfl
    have hst : setup_tracing env comps sink = setup_sink env comps sink log := by
      simp [setup_tracing, hdi]
    obtain ⟨t, ht⟩ := setup_sink_append env comps sink log
    constructor
    · intro _
      rw [hst, ht, hlog]
      exact take4_prelude_append t
    · intro hph
      have : dwtItmPhaseOk env comps = true := hiff.mp rfl
      rw [hph] at this
      exact absurd this (by simp)

/-- Witness for claim C1: with every transaction succeeding the log of a
TPIU-sink run starts with the prelude; with every transaction failing the
run aborts with an error. -/
theorem setup_tracing_dwt_itm_before_sink_witness :
    (setup_tracing ⟨fun _ => true, 0⟩
        [⟨.dwt, 0⟩, ⟨.itm, 1⟩, ⟨.tpiu, 2⟩]
        (.tpiu ⟨8, 2, .uart, false⟩)).1.take 4 = dwtItmPrelude ∧
    exceptOk (setup_tracing ⟨fun _ => false, 0⟩
        [⟨.dwt, 0⟩, ⟨.itm, 1⟩, ⟨.tpiu, 2⟩]
        (.tpiu ⟨8, 2, .uart, false⟩)).2 = false := by
  constructor
  · exact (setup_tracing_dwt_itm_before_sink ⟨fun _ => true, 0⟩
      [⟨.dwt, 0⟩, ⟨.itm, 1⟩, ⟨.tpiu, 2⟩] (.tpiu ⟨8, 2, .uart, false⟩)).1
      (by decide)
  · exact ((setup_tracing_dwt_itm_before_sink ⟨fun _ => false, 0⟩
      [⟨.dwt, 0⟩, ⟨.itm, 1⟩, ⟨.tpiu, 2⟩] (.tpiu ⟨8, 2, .uart, false⟩)).2
      (by decide)).1

/-- Claim C3: when no SWO component is present, requesting the SWO sink
issues exactly the same run (same transaction log, same outcome) as
requesting the TPIU sink with the same config. -/
theorem swo_fallback_same_sequence :
    ∀ (env : Env) (comps : List CoresightComponent) (cfg : SwoConfig),
    (∀ c ∈ comps, c.kind ≠ PeripheralType.swo) →
    setup_tracing env comps (TraceSink.swo cfg) =
      setup_tracing env comps (TraceSink.tpiu cfg) := by
  intro env comps cfg h
  have hf : comps.find? (fun c => c.kind == PeripheralType.swo) = none :=
    List.find?_eq_none.mpr (by intro c hc; simpa using h c hc)
  have hswo : find_component comps .swo =
      Except.error (Err.componentNotFound .swo) := by
    rw [find_component_eq_find?, hf]
  rcases hdi : setup_dwt_itm env comps with ⟨log, r⟩
  cases r with
  | error e => simp [setup_tracing, hdi]
  | ok u =>
    cases u
    simp [setup_tracing, hdi, setup_sink, hswo]

/-- Witness for claim C3 on a DWT/ITM/TPIU-only component list. -/
theorem swo_fallback_same_sequence_witness :
    setup_tracing ⟨fun _ => true, 0⟩ [⟨.dwt, 0⟩, ⟨.itm, 1⟩, ⟨.tpiu, 2⟩]
        (TraceSink.swo ⟨8, 2, .uart, false⟩) =
      setup_tracing ⟨fun _ => true, 0⟩ [⟨.dwt, 0⟩, ⟨.itm, 1⟩, ⟨.tpiu, 2⟩]
        (TraceSink.tpiu ⟨8, 2, .uart, false⟩) :=
  swo_fallback_same_sequence ⟨fun _ => true, 0⟩
    [⟨.dwt, 0⟩, ⟨.itm, 1⟩, ⟨.tpiu, 2⟩] ⟨8, 2, .uart, false⟩ (by decide)

/-- With an all-succeeding environment the DWT/ITM phase issues exactly
the prelude and succeeds. -/
theorem setup_dwt_itm_all_ok (k : Nat) (comps : List CoresightComponent)
    (hd : ∃ c, find_component comps .dwt = Except.ok c)
    (hi : ∃ c, find_component comps .itm = Except.ok c) :
    setup_dwt_itm ⟨fun _ => true, k⟩ comps = (dwtItmPrelude, Except.ok ()) := by
  obtain ⟨cd, hd⟩ := hd
  obtain ⟨ci, hi⟩ := hi
  simp [setup_dwt_itm, emit, hd, hi, dwtItmPrelude]

/-- With an all-succeeding environment the ready poll reads `false` `k`
times and then `true`, and succeeds. -/
theorem tmc_ready_loop_all_ok (m : Nat) : ∀ (k : Nat) (log : List Event),
    tmc_ready_loop ⟨fun _ => true, m⟩ log k =
      (log ++ (List.replicate k (Event.tmcReady false) ++ [Event.tmcReady true]),
       Except.ok ()) := by
  intro k
  induction k with
  | zero => intro log; simp [tmc_ready_loop, emit]
  | succ k ih =>
    intro log
    simp [tmc_ready_loop, emit, ih, List.replicate_succ]

/-- Claim C6: for the trace-memory sink (components present, register I/O
succeeding, the ready poll reading `false` `k` times), the configuration
performs exactly: DWT/ITM prelude, then on the TMC `disable_capture`, the
blocking `ready()` spin until it reads true, `set_mode(Software)`, and
`enable_capture`, in that order with no other TMC operation
interleaved. -/
theorem trace_memory_sink_sequence :
    ∀ (k : Nat) (comps : List CoresightComponent),
    (∃ c, find_component comps .dwt = Except.ok c) →
    (∃ c, find_component comps .itm = Except.ok c) →
    (∃ c, find_component comps .tmc = Except.ok c) →
    setup_tracing ⟨fun _ => true, k⟩ comps .traceMemory =
      (dwtItmPrelude ++
        Event.tmcDisableCapture ::
          (List.replicate k (Event.tmcReady false) ++
            [Event.tmcReady true, Event.tmcSetMode TmcMode.software,
             Event.tmcEnableCapture]),
       Except.ok ()) := by
  intro k comps hd hi ht
  obtain ⟨ct, ht⟩ := ht
  have h1 := setup_dwt_itm_all_ok k comps hd hi
  simp [setup_tracing, h1, setup_sink, ht, emit, tmc_ready_loop_all_ok]

/-- Witness for claim C6 on the component list [DWT, ITM, TMC] with two
not-ready polls. -/
theorem trace_memory_sink_sequence_witness :
    setup_tracing ⟨fun _ => true, 2⟩ [⟨.dwt, 0⟩, ⟨.itm, 1⟩, ⟨.tmc, 2⟩]
        .traceMemory =
      (dwtItmPrelude ++
        Event.tmcDisableCapture ::
          (List.replicate 2 (Event.tmcReady false) ++
            [Event.tmcReady true, Event.tmcSetMode TmcMode.software,
             Event.tmcEnableCapture]),
       Except.ok ()) :=
  trace_memory_sink_sequence 2 [⟨.dwt, 0⟩, ⟨.itm, 1⟩, ⟨.tmc, 2⟩]
    ⟨⟨.dwt, 0⟩, rfl⟩ ⟨⟨.itm, 1⟩, rfl⟩ ⟨⟨.tmc, 2⟩, rfl⟩

/-- `prescalerValues` distributes over log concatenation. -/
theorem prescalerValues_append (a b : List Event) :
    prescalerValues (a ++ b) = prescalerValues a ++ prescalerValues b := by
  simp [prescalerValues]

/-- A log whose transactions carry no prescaler value contributes no
prescaler values. -/
theorem prescalerValues_eq_nil (l : List Event)
    (h : ∀ e ∈ l, prescalerOf e = none) : prescalerValues l = [] := by
  simp only [prescalerValues, List.filterMap_eq_nil_iff]
  exact h

/-- The DWT/ITM prelude carries no prescaler write. -/
theorem prescalerOf_prelude : ∀ e ∈ dwtItmPrelude, prescalerOf e = none := by
  decide

/-- The sink phase of an SWO- or TPIU-sink run appends only transactions
that are prescaler-free or a prescaler write carrying the value the u32
computation succeeded with. -/
theorem setup_sink_prescaler_events (env : Env)
    (comps : List CoresightComponent) (cfg : SwoConfig) (log : List Event) :
    ∀ sink, (sink = TraceSink.swo cfg ∨ sink = TraceSink.tpiu cfg) →
    ∃ t, (setup_sink env comps sink log).1 = log ++ t ∧
      ∀ e ∈ t, prescalerOf e = none ∨
        ∃ q, u32_prescaler cfg.tpiu_clk cfg.baud = Except.ok q ∧
          (e = Event.tpiuSetPrescaler q ∨ e = Event.swoSetPrescaler q) := by
  rintro sink (rfl | rfl)
  · cases hs : find_component comps .swo with
    | error e =>
      cases htp : find_component comps .tpiu with
      | error e' =>
        exact ⟨[], by simp [setup_sink, hs, htp], by simp⟩
      | ok c =>
        obtain ⟨t, h, hp⟩ := configure_tpiu_log env cfg log
        refine ⟨t, by simp [setup_sink, hs, htp, h], ?_⟩
        intro e he
        rcases hp e he with h' | ⟨q, h1, h2⟩
        · exact Or.inl h'
        · exact Or.inr ⟨q, h1, Or.inl h2⟩
    | ok c =>
      cases h0 : env.ok log.length with
      | false =>
        refine ⟨[Event.swoUnlock], by simp [setup_sink, hs, emit, h0], ?_⟩
        intro e he
        rcases List.mem_singleton.mp he with rfl
        exact Or.inl rfl
      | true =>
        cases hq : u32_prescaler cfg.tpiu_clk cfg.baud with
        | error err =>
          refine ⟨[Event.swoUnlock],
            by simp [setup_sink, hs, emit, h0, hq], ?_⟩
          intro e he
          rcases List.mem_singleton.mp he with rfl
          exact Or.inl rfl
        | ok q =>
          cases h1 : env.ok (log.length + 1) with
          | false =>
            refine ⟨[Event.swoUnlock, Event.swoSetPrescaler q],
              by simp [setup_sink, hs, emit, h0, hq, h1], ?_⟩
            intro e he
            rcases List.mem_cons.mp he with rfl | he'
            · exact Or.inl rfl
            · rcases List.mem_singleton.mp he' with rfl
              exact Or.inr ⟨q, rfl, Or.inr rfl⟩
          | true =>
            refine ⟨[Event.swoUnlock, Event.swoSetPrescaler q,
              Event.swoSetPinProtocol
                (match cfg.mode with | .manchester => 1 | .uart => 2)],
              by simp [setup_sink, hs, emit, h0, hq, h1], ?_⟩
            intro e he
            rcases List.mem_cons.mp he with rfl | he'
            · exact Or.inl rfl
            · rcases List.mem_cons.mp he' with rfl | he''
              · exact Or.inr ⟨q, rfl, Or.inr rfl⟩
              · rcases List.mem_singleton.mp he'' with rfl
                exact Or.inl rfl
  · cases htp : find_component comps .tpiu with
    | error e =>
      exact ⟨[], by simp [setup_sink, htp], by simp⟩
    | ok c =>
      obtain ⟨t, h, hp⟩ := configure_tpiu_log env cfg log
      refine ⟨t, by simp [setup_sink, htp, h], ?_⟩
      intro e he
      rcases hp e he with h' | ⟨q, h1, h2⟩
      · exact Or.inl h'
      · exact Or.inr ⟨q, h1, Or.inl h2⟩

/-- Claim C5: in every SWO- or TPIU-sink run under the precondition
`0 < baud ≤ clock`, every prescaler value written (by either the TPIU or
the SWO path) equals `floor(clock / baud) - 1` exactly, including the
boundary `clock = baud` where it is 0. -/
theorem prescaler_value_written :
    ∀ (env : Env) (comps : List CoresightComponent) (cfg : SwoConfig)
      (sink : TraceSink),
    (sink = TraceSink.swo cfg ∨ sink = TraceSink.tpiu cfg) →
    0 < cfg.baud → cfg.baud ≤ cfg.tpiu_clk →
    ∀ v ∈ prescalerValues (setup_tracing env comps sink).1,
      v = cfg.tpiu_clk / cfg.baud - 1 := by
  intro env comps cfg sink hsink hb hle v hv
  have hq : u32_prescaler cfg.tpiu_clk cfg.baud =
      Except.ok (cfg.tpiu_clk / cfg.baud - 1) := by
    have h1 : ¬cfg.baud = 0 := by omega
    have h2 : ¬cfg.tpiu_clk / cfg.baud = 0 := by
      have := Nat.div_pos hle hb
      omega
    simp [u32_prescaler, h1, h2]
  obtain ⟨hok, hmem, hiff⟩ := setup_dwt_itm_char env comps
  rcases hdi : setup_dwt_itm env comps with ⟨log, r⟩
  rw [hdi] at hok hmem hiff
  cases r with
  | error e =>
    have hst : setup_tracing env comps sink = (log, Except.error e) := by
      simp [setup_tracing, hdi]
    rw [hst] at hv
    have hnil : prescalerValues log = [] :=
      prescalerValues_eq_nil log
        (fun e' he' => prescalerOf_prelude e' (by simpa using hmem e' he'))
    rw [hnil] at hv
    exact absurd hv (List.not_mem_nil v)
  | ok u =>
    cases u
    have hlog : log = dwtItmPrelude := by simpa using hok rfl
    have hst : setup_tracing env comps sink = setup_sink env comps sink log := by
      simp [setup_tracing, hdi]
    rw [hst] at hv
    obtain ⟨t, ht, hp⟩ := setup_sink_prescaler_events env comps cfg log sink hsink
    rw [ht, prescalerValues_append] at hv
    rcases List.mem_append.mp hv with hv' | hv'
    · rw [hlog] at hv'
      rw [show prescalerValues dwtItmPrelude = [] from rfl] at hv'
      exact absurd hv' (List.not_mem_nil v)
    · obtain ⟨e, he, hsome⟩ := List.mem_filterMap.mp hv'
      rcases hp e he with h' | ⟨q, hu, he'⟩
      · rw [h'] at hsome
        exact absurd hsome (by simp)
      · rcases he' with rfl | rfl <;>
        · simp only [prescalerOf] at hsome
          rw [hq] at hu
          cases hu
          exact (Option.some.inj hsome).symm ▸ rfl

/-- Witness for claim C5: a TPIU-sink run with clock 8 and baud 2 writes
prescaler 3 = 8/2 - 1. -/
theorem prescaler_value_written_witness : (3 : Nat) = 8 / 2 - 1 :=
  prescaler_value_written ⟨fun _ => true, 0⟩
    [⟨.dwt, 0⟩, ⟨.itm, 1⟩, ⟨.tpiu, 2⟩] ⟨8, 2, .uart, false⟩
    (TraceSink.tpiu ⟨8, 2, .uart, false⟩) (Or.inr rfl)
    (by decide) (by decide) 3 (by decide)

/-- Each FIFO word contributes exactly four bytes. -/
theorem u32ToLeBytes_length (w : Nat) : (u32ToLeBytes w).length = 4 := rfl

/-- Every terminating drain leaves a frame-aligned raw buffer of at most
`fifo_size + 16` bytes, and of at most `fifo_size` bytes when `fifo_size`
is a positive multiple of 16. -/
theorem drainFifo_bound (F : Nat) : ∀ (reads : List (Option Nat)) (acc : List Nat),
    acc.length % 4 = 0 →
    (acc.length % 16 = 0 → acc.length < F ∨ acc.length = 0) →
    (acc.length % 16 ≠ 0 → 16 * (acc.length / 16) < F ∨ acc.length < 16) →
    ∀ r, drainFifo F reads acc = some r →
      r.length % 16 = 0 ∧ r.length ≤ F + 16 ∧
      (F % 16 = 0 → 0 < F → r.length ≤ F) := by
  intro reads
  induction reads with
  | nil =>
    intro acc h4 ha hb r hr
    simp only [drainFifo] at hr
    split at hr
    · rename_i hal
      obtain rfl := Option.some.inj hr
      have := ha hal
      exact ⟨hal, by omega, by intro h1 h2; omega⟩
    · exact absurd hr (by simp)
  | cons head rest ih =>
    intro acc h4 ha hb r hr
    cases head with
    | some w =>
      simp only [drainFifo] at hr
      have hlen : (acc ++ u32ToLeBytes w).length = acc.length + 4 := by
        simp [u32ToLeBytes]
      split at hr
      · rename_i hcond
        obtain rfl := Option.some.inj hr
        rw [hlen] at hcond
        refine ⟨?_, ?_, ?_⟩ <;> rw [hlen]
        · omega
        · omega
        · intro h1 h2; omega
      · rename_i hcond
        rw [hlen] at hcond
        refine ih (acc ++ u32ToLeBytes w) ?_ ?_ ?_ r hr <;> rw [hlen]
        · omega
        · intro h; omega
        · intro h; omega
    | none =>
      simp only [drainFifo] at hr
      split at hr
      · rename_i hal
        obtain rfl := Option.some.inj hr
        have := ha hal
        exact ⟨hal, by omega, by intro h1 h2; omega⟩
      · rename_i hal
        exact ih acc h4 ha hb r hr

/-- A frame-decode step yields at most two data bytes per byte pair. -/
theorem decodePairs_len (aux : Nat) : ∀ (ps : List (Nat × Nat)) (k id : Nat),
    (decodePairs aux ps k id).1.length ≤ 2 * ps.length := by
  intro ps
  induction ps with
  | nil => intro k id; simp [decodePairs]
  | cons p rest ih =>
    intro k id
    obtain ⟨e, o⟩ := p
    by_cases he : e % 2 = 1
    · rcases hrec : decodePairs aux rest (k + 1) (e / 2) with ⟨tail, idF⟩
      have hb := ih (k + 1) (e / 2)
      rw [hrec] at hb
      simp only [] at hb
      by_cases ho : rest.isEmpty <;>
        simp [decodePairs, he, ho, hrec] <;> omega
    · rcases hrec : decodePairs aux rest (k + 1) id with ⟨tail, idF⟩
      have hb := ih (k + 1) id
      rw [hrec] at hb
      simp only [] at hb
      by_cases ho : rest.isEmpty <;>
        simp [decodePairs, he, ho, hrec] <;> omega

/-- A byte list yields at most half its length in byte pairs. -/
theorem frameBytePairs_len : ∀ (n : Nat) (l : List Nat), l.length = n →
    2 * (frameBytePairs l).length ≤ l.length := by
  intro n
  induction n using Nat.strong_induction_on with
  | _ n ih =>
    intro l hl
    rcases l with _ | ⟨e, _ | ⟨o, rest⟩⟩
    · simp [frameBytePairs]
    · simp [frameBytePairs]
    · have hr : rest.length < n := by
        simp at hl
        omega
      have := ih rest.length hr rest rfl
      simp [frameBytePairs]
      omega

/-- Decoding one frame yields at most as many data bytes as the frame has
raw bytes. -/
theorem frameDecode_len (f : List Nat) (id : Nat) :
    (frameDecode f id).1.length ≤ f.length := by
  have h1 := decodePairs_len (f.getD 15 0) (frameBytePairs f) 0 id
  have h2 := frameBytePairs_len f.length f rfl
  simp only [frameDecode]
  omega

/-- Decoding a frame sequence yields at most as many data bytes as the
frames have raw bytes. -/
theorem decodeAll_len : ∀ (fs : List (List Nat)) (id : Nat),
    (decodeAll fs id).1.length ≤ (fs.map List.length).sum := by
  intro fs
  induction fs with
  | nil => intro id; simp [decodeAll]
  | cons f fs ih =>
    intro id
    rcases hd : frameDecode f id with ⟨dec, id'⟩
    rcases hr : decodeAll fs id' with ⟨rest, idF⟩
    have h1 := frameDecode_len f id
    rw [hd] at h1
    have h2 := ih id'
    rw [hr] at h2
    simp only [] at h1 h2
    simp [decodeAll, hd, hr]
    omega

/-- The full frames of a buffer hold at most the buffer's bytes. -/
theorem chunksExactGo_sum : ∀ (fuel : Nat) (l : List Nat),
    ((chunksExactGo fuel l).map List.length).sum ≤ l.length := by
  intro fuel
  induction fuel with
  | zero => intro l; simp [chunksExactGo]
  | succ fuel ih =>
    intro l
    by_cases h : 16 ≤ l.length
    · have h2 := ih (l.drop 16)
      rw [List.length_drop] at h2
      simp [chunksExactGo, h, List.length_take, Nat.min_eq_left h]
      omega
    · simp [chunksExactGo, h]

/-- The frame-processing loop is the demultiplexing dispatch applied to
the in-order decode of all frames. -/
theorem processFrames_decodeAll : ∀ (fs : List (List Nat)) (id : Nat),
    processFrames fs id =
      ((decodeAll fs id).1.filterMap (fun p => if p.1 = 13 then some p.2 else none),
       (decodeAll fs id).1.filter (fun p => !(p.1 == 13) && !(p.1 == 0)),
       (decodeAll fs id).2) := by
  intro fs
  induction fs with
  | nil => intro id; simp [processFrames, decodeAll]
  | cons f fs ih =>
    intro id
    rcases hd : frameDecode f id with ⟨dec, id'⟩
    rcases hr : decodeAll fs id' with ⟨rest, idF⟩
    have h2 := ih id'
    rw [hr] at h2
    simp [processFrames, decodeAll, hd, hr, h2, demuxFrame_eq]

/-- Claim C2 counterexample: with `fifo_size = 4` (the FIFO being refilled
while it is drained) the four words below form one frame announcing
source 13 followed by 14 data bytes, so the returned ITM stream has 14
bytes, more than `fifo_size`. -/
theorem read_trace_memory_exceeds_fifo_size :
    read_trace_memory 4
        [some 100925979, some 235670024, some 370414096, some 1841688] =
      some ([2, 4, 6, 8, 10, 12, 14, 16, 18, 20, 22, 24, 26, 28], []) ∧
    ¬ (List.length [2, 4, 6, 8, 10, 12, 14, 16, 18, 20, 22, 24, 26, 28] ≤ 4) := by
  constructor
  · rfl
  · decide

/-- Claim C2 (amended): a successful `read_trace_memory` consumes a raw
byte count that is a multiple of 16 (never a partial frame), returns at
most `fifo_size + 16` bytes — at most `fifo_size` whenever `fifo_size`
is a positive multiple of 16 — and returns exactly the bytes attributed
to the instrumentation-trace source 13, in original order. -/
theorem read_trace_memory_bounds :
    ∀ (fifoSize : Nat) (reads : List (Option Nat)) (out : List Nat)
      (warns : List (Nat × Nat)),
    read_trace_memory fifoSize reads = some (out, warns) →
    out.length ≤ fifoSize + 16 ∧
    (fifoSize % 16 = 0 → 0 < fifoSize → out.length ≤ fifoSize) ∧
    ∃ etf, drainFifo fifoSize reads [] = some etf ∧
      etf.length % 16 = 0 ∧ out.length ≤ etf.length ∧
      out = (decodeAll (chunksExact16 etf) 0).1.filterMap
        (fun p => if p.1 = 13 then some p.2 else none) := by
  intro F reads out warns h
  cases hd : drainFifo F reads [] with
  | none => simp [read_trace_memory, hd] at h
  | some etf =>
    obtain ⟨hal, hle, hsharp⟩ :=
      drainFifo_bound F reads [] (by simp) (by simp) (by simp) etf hd
    simp only [read_trace_memory, hd] at h
    rw [processFrames_decodeAll] at h
    simp only [Option.some.injEq, Prod.mk.injEq] at h
    obtain ⟨ho, hw⟩ := h
    have hout : out = (decodeAll (chunksExact16 etf) 0).1.filterMap
        (fun p => if p.1 = 13 then some p.2 else none) := ho.symm
    have hlen1 : out.length ≤ (decodeAll (chunksExact16 etf) 0).1.length := by
      rw [hout]
      exact List.length_filterMap_le _ _
    have hlen2 := decodeAll_len (chunksExact16 etf) 0
    have hlen3 : ((chunksExact16 etf).map List.length).sum ≤ etf.length :=
      chunksExactGo_sum etf.length etf
    refine ⟨by omega, ?_, etf, rfl, hal, by omega, hout⟩
    intro h1 h2
    have := hsharp h1 h2
    omega

/-- Witness for claim C2 (amended) on an immediately-empty FIFO of size
16. -/
theorem read_trace_memory_bounds_witness :
    ([] : List Nat).length ≤ 16 + 16 :=
  (read_trace_memory_bounds 16 [] [] [] rfl).1

/-- Claim C7 counterexample: a first invocation whose raw buffer is the
frame `[0,...,0,27,0]` ends with carried source ID 13, yet the next
invocation (here fed one all-data frame) returns no bytes because it
restarts decoding at source ID 0, while decoding the same frames with the
carried ID 13 yields 15 bytes: the carried-forward ID is not available
to, nor consumed by, the next invocation. -/
theorem read_trace_memory_id_not_threaded :
    read_trace_memory 4 [some 0, some 0, some 0, some 1769472] =
      some ([], []) ∧
    (processFrames (chunksExact16 [0, 0, 0, 0, 0, 0, 0, 0, 0, 0, 0, 0, 0, 0, 27, 0]) 0).2.2 = 13 ∧
    read_trace_memory 4
        [some 134611970, some 269356042, some 404100114, some 1973274] =
      some ([], []) ∧
    (processFrames (chunksExact16 [2, 4, 6, 8, 10, 12, 14, 16, 18, 20, 22, 24, 26, 28, 30, 0]) 13).1 =
      [2, 4, 6, 8, 10, 12, 14, 16, 18, 20, 22, 24, 26, 28, 30] := by
  refine ⟨rfl, rfl, rfl, rfl⟩

/-- Claim C7 (amended): the frame-decoder state is local to one
invocation of `read_trace_memory` and is not hidden global state; each
invocation decodes its frames starting from source ID 0, and the final
carried ID is discarded rather than returned to or consumed by the next
invocation (the documented limitation). -/
theorem read_trace_memory_restarts_at_zero :
    ∀ (fifoSize : Nat) (reads : List (Option Nat)) (out : List Nat)
      (warns : List (Nat × Nat)),
    read_trace_memory fifoSize reads = some (out, warns) →
    ∃ etf, drainFifo fifoSize reads [] = some etf ∧
      out = (processFrames (chunksExact16 etf) 0).1 ∧
      warns = (processFrames (chunksExact16 etf) 0).2.1 := by
  intro F reads out warns h
  cases hd : drainFifo F reads [] with
  | none => simp [read_trace_memory, hd] at h
  | some etf =>
    rcases hp : processFrames (chunksExact16 etf) 0 with ⟨a, b, c⟩
    simp only [read_trace_memory, hd, hp] at h
    simp only [Option.some.injEq, Prod.mk.injEq] at h
    obtain ⟨ha, hb⟩ := h
    exact ⟨etf, rfl, by rw [← ha, hp], by rw [← hb, hp]⟩

/-- Witness for claim C7 (amended) on an immediately-empty FIFO. -/
theorem read_trace_memory_restarts_at_zero_witness :
    ([] : List Nat) = (processFrames (chunksExact16 []) 0).1 := by
  obtain ⟨etf, h1, h2, h3⟩ := read_trace_memory_restarts_at_zero 0 [] [] [] rfl
  have he : etf = [] :=
    Option.some.inj ((rfl : drainFifo 0 [] [] = some []).symm.trans h1).symm
  rw [he] at h2
  exact h2
